import Mathlib

/-
Shallow embedding of `src/internal/virt_regs/mod.rs` (virtual-register store
of a register allocator), together with proofs about its construction entry
points (`build_initial_vregs`, `create_vreg_from_segments`), its accessors
(`segments`, `group_members`, `num_virt_regs`) and its diagnostic `dump`.

External collaborators (the virtual-register builder, the function being
compiled, register-bank metadata, the spill allocator, tracing and the
statistics sink) are modelled as parameters and as an explicit event trace:
the store code under verification only forwards data to them, so each call
the store makes is recorded as an `Event`.

Machine details: value handles, program points, banks and classes are 32-bit
indices in the source; none of the code here performs arithmetic on them, so
they are carried as `Nat`.  `spill_weight` is an `f32` that this module only
stores and passes through, so it is carried as an uninterpreted `Nat` payload.
-/

namespace VirtRegsModel

/-- `LiveRangeSegment { from, to }`: a half-open interval of program points.
(`from` is a Lean keyword, hence the field name `from_`.) -/
structure LiveRangeSegment where
  from_ : Nat
  to_ : Nat
deriving DecidableEq

/-- `ValueSegment`: one live-range segment carrying one value.  The source
struct also carries a use-list handle that this module never reads; it is
omitted. -/
structure ValueSegment where
  live_range : LiveRangeSegment
  value : Nat
deriving DecidableEq

/-- `CompactList`: a (start, length) descriptor into a shared pool. -/
structure CompactList where
  start : Nat
  len : Nat
deriving DecidableEq, Inhabited

/-- `CompactList::as_slice`: the described slice of the pool. -/
def CompactList.as_slice (cl : CompactList) (pool : List α) : List α :=
  (pool.drop cl.start).take cl.len

/-- `VirtRegData`: the per-virtual-register record (`class` is a Lean
keyword, hence `class_`). -/
structure VirtRegData where
  segments : CompactList
  class_ : Nat
  group_index : Nat
  group : Option Nat
  has_fixed_hint : Bool
  spill_weight : Nat
deriving DecidableEq, Inhabited

/-- `VirtRegs`: the store.  `PrimaryMap`s are embedded as lists indexed by
the dense `u32` handle, `CompactListPool`s as the backing lists. -/
structure VirtRegs where
  virt_regs : List VirtRegData
  groups : List CompactList
  segment_pool : List ValueSegment
  group_pool : List Nat
deriving DecidableEq

/-- `VirtRegs::new`. -/
def VirtRegs.new : VirtRegs := ⟨[], [], [], []⟩

/-- `VirtRegs::clear`: truncates every table and pool to empty. -/
def VirtRegs.clear (_s : VirtRegs) : VirtRegs := ⟨[], [], [], []⟩

/-- `VirtRegs::num_virt_regs`. -/
def VirtRegs.num_virt_regs (s : VirtRegs) : Nat := s.virt_regs.length

/-- `VirtRegs::virt_regs()`: the keys of the virtual-register table, in
creation order. -/
def VirtRegs.virt_reg_keys (s : VirtRegs) : List Nat :=
  List.range s.virt_regs.length

/-- `VirtRegs::groups()`: the keys of the group table, in creation order. -/
def VirtRegs.group_keys (s : VirtRegs) : List Nat :=
  List.range s.groups.length

/-- `VirtRegs::group_members`. -/
def VirtRegs.group_members (s : VirtRegs) (g : Nat) : List Nat :=
  ((s.groups[g]?).map (fun cl => cl.as_slice s.group_pool)).getD []

/-- `VirtRegs::segments`. -/
def VirtRegs.segments (s : VirtRegs) (v : Nat) : List ValueSegment :=
  ((s.virt_regs[v]?).map (fun d => d.segments.as_slice s.segment_pool)).getD []

/-- One line of diagnostic output produced by `VirtRegs::dump`. -/
inductive Line where
  /-- the fixed `"Virtual registers:"` heading -/
  | header1 : Line
  /-- the fixed `"Virtual register groups:"` heading -/
  | header2 : Line
  /-- the per-register line with its class and spill weight -/
  | vreg (v : Nat) (cls : Nat) (weight : Nat) : Line
  /-- one owned segment, printed via `ValueSegment::dump` -/
  | seg (s : ValueSegment) : Line
  /-- a group's member list -/
  | group (g : Nat) (members : List Nat) : Line
deriving DecidableEq

/-- The first loop of `VirtRegs::dump`: for each virtual register passing
the filter, its class/weight line followed by each owned segment. -/
def vregLines (s : VirtRegs) (filter : Nat → Bool) : List Line :=
  (List.range s.virt_regs.length).flatMap fun v =>
    match s.virt_regs[v]? with
    | none => []
    | some d =>
      if filter v then
        Line.vreg v d.class_ d.spill_weight ::
          (d.segments.as_slice s.segment_pool).map Line.seg
      else []

/-- One iteration of the group loop of `VirtRegs::dump`.  The source indexes
`self.group_members(group)[0]` before consulting the filter; the bounds
check on that index is the `none` branch. -/
def groupStep (s : VirtRegs) (filter : Nat → Bool) (acc : List Line) (g : Nat) :
    Option (List Line) :=
  match (s.group_members g)[0]? with
  | none => none
  | some first =>
    if filter first then some (acc ++ [Line.group g (s.group_members g)]) else some acc

/-- The group loop of `VirtRegs::dump`. -/
def groupLines (s : VirtRegs) (filter : Nat → Bool) : Option (List Line) :=
  (List.range s.groups.length).foldlM (groupStep s filter) []

/-- All lines emitted by `VirtRegs::dump`, `none` when the group loop hits
its bounds-check failure. -/
def dumpLines (s : VirtRegs) (filter : Nat → Bool) : Option (List Line) :=
  (groupLines s filter).map fun gl =>
    Line.header1 :: vregLines s filter ++ Line.header2 :: gl

/-- `VirtRegs::dump(&self, ...)`: the method borrows the store immutably, so
its embedding returns the store it was given alongside the emitted lines. -/
def VirtRegs.dump (s : VirtRegs) (filter : Nat → Bool) :
    Option (VirtRegs × List Line) :=
  (dumpLines s filter).map fun L => (s, L)

/-- The external `VirtRegBuilder::build` (its source, `builder.rs`, is not
part of the sources given): a bank, the optional split-placement context,
the segment slice and the current store, yielding the mutated store.  The
other collaborator arguments threaded through the call (`uses`, `hints`,
`coalescing`, `stats`, `options`) are not read by this module and are left
out of the signature. -/
abbrev Builder := Nat → Option Unit → List ValueSegment → VirtRegs → VirtRegs

/-- Names of the three statistics recorded by `build_initial_vregs`. -/
inductive StatName where
  | initial_vregs
  | initial_vreg_groups
  | initial_vreg_segments
deriving DecidableEq

/-- One observable call made by the store into a collaborator. -/
inductive Event where
  /-- `self.clear()` -/
  | clearStore : Event
  /-- `virt_reg_builder.clear(func)` -/
  | clearBuilder : Event
  /-- `spill_allocator.clear(func)` -/
  | clearSpill : Event
  /-- `spill_allocator.set_range(set, spillslot_size, live_range_union)` -/
  | setRange (set : Nat) (size : Nat) (range : LiveRangeSegment) : Event
  /-- `virt_reg_builder.build(bank, ..., split_placement, new_vregs, segments)`,
  recording which optional arguments were passed -/
  | build (bank : Nat) (split_placement : Option Unit) (collector : Bool)
      (segs : List ValueSegment) : Event
  /-- the `trace_enabled` structural dump -/
  | dumpTrace (lines : List Line) : Event
  /-- one `stat!` record -/
  | stat (name : StatName) (n : Nat) : Event
deriving DecidableEq

/-- The two ways the embedded code can abort: a `debug_assert!` firing, or a
slice bounds check failing. -/
inductive Failure where
  | assertFail
  | indexFail
deriving DecidableEq

/-- Modelled from the spec: `builder.rs` is not part of the given sources,
and per the spec the builder appends every virtual register it creates to
the collector, in creation order.  Handles are dense indices assigned by
`PrimaryMap::push`, so the handles created between store state `before` and
store state `after` are exactly the indices from `before.num_virt_regs`
(inclusive) to `after.num_virt_regs` (exclusive), in increasing order. -/
def created_handles (before after : VirtRegs) : List Nat :=
  List.range' before.num_virt_regs (after.num_virt_regs - before.num_virt_regs)

/-- `VirtRegs::create_vreg_from_segments`.  `debug_assertions` selects the
build configuration: the `debug_assert!(!segments.is_empty())` only runs
when it is true.  On success the result carries the mutated store, the
collector contents (`new_vregs` plus the handles appended by the builder,
modelled from the spec via `created_handles`), and the builder call that was
made. -/
def VirtRegs.create_vreg_from_segments (debug_assertions : Bool)
    (value_bank : Nat → Nat) (B : Builder) (s : VirtRegs)
    (segments : List ValueSegment) (new_vregs : List Nat) :
    Except Failure (VirtRegs × List Nat × Event) :=
  if debug_assertions && segments.isEmpty then
    Except.error Failure.assertFail
  else
    match segments with
    | [] => Except.error Failure.indexFail
    | first :: rest =>
      let bank := value_bank first.value
      let s1 := B bank none (first :: rest) s
      Except.ok (s1, new_vregs ++ created_handles s s1,
        Event.build bank none true (first :: rest))

/-- The `LiveRangeSegment::new(segments[0].live_range.from,
segments.last().unwrap().live_range.to)` union of a non-empty segment
list. -/
def live_range_union (first : ValueSegment) (rest : List ValueSegment) :
    LiveRangeSegment :=
  ⟨first.live_range.from_,
   ((first :: rest).getLast (List.cons_ne_nil first rest)).live_range.to_⟩

/-- The body of the `for (set, mut segments) in take_all_value_sets()` loop
of `build_initial_vregs`.  `segments[0]` is a bounds-checked index, so the
empty case is the `indexFail` abort; no other validation is performed. -/
def processSet (value_bank spillslot_size : Nat → Nat) (B : Builder)
    (acc : VirtRegs × List Event) (item : Nat × List ValueSegment) :
    Except Failure (VirtRegs × List Event) :=
  match item with
  | (_, []) => Except.error Failure.indexFail
  | (set, first :: rest) =>
    let bank := value_bank first.value
    let size := spillslot_size bank
    Except.ok (B bank (some ()) (first :: rest) acc.1,
      acc.2 ++ [Event.setRange set size (live_range_union first rest),
                Event.build bank (some ()) false (first :: rest)])

/-- The three reset calls that open `build_initial_vregs`. -/
def initEvents : List Event :=
  [Event.clearStore, Event.clearBuilder, Event.clearSpill]

/-- The three `stat!` records that close `build_initial_vregs`; the segment
total sums each record's `CompactList` length. -/
def statEvents (s : VirtRegs) : List Event :=
  [Event.stat StatName.initial_vregs s.virt_regs.length,
   Event.stat StatName.initial_vreg_groups s.groups.length,
   Event.stat StatName.initial_vreg_segments
     ((s.virt_regs.map fun d => d.segments.len).sum)]

/-- `VirtRegs::build_initial_vregs`.  `value_live_ranges` is the drained
sequence of `(set, segments)` value sets; `trace_enabled` is the build-time
tracing switch.  The result is the final store and the trace of collaborator
calls. -/
def VirtRegs.build_initial_vregs (value_bank spillslot_size : Nat → Nat)
    (B : Builder) (trace_enabled : Bool)
    (value_live_ranges : List (Nat × List ValueSegment)) (s : VirtRegs) :
    Except Failure (VirtRegs × List Event) :=
  match value_live_ranges.foldlM (processSet value_bank spillslot_size B)
      (VirtRegs.clear s, initEvents) with
  | Except.error e => Except.error e
  | Except.ok (st, evs) =>
    if trace_enabled then
      match dumpLines st (fun _ => true) with
      | none => Except.error Failure.indexFail
      | some L => Except.ok (st, evs ++ [Event.dumpTrace L] ++ statEvents st)
    else Except.ok (st, evs ++ statEvents st)

/-- The store transformation performed by one iteration of the
`build_initial_vregs` loop: the builder call, with split placement passed
and no collector. -/
def stepState (value_bank : Nat → Nat) (B : Builder) (st : VirtRegs)
    (item : Nat × List ValueSegment) : VirtRegs :=
  match item with
  | (_, []) => st
  | (_, first :: rest) => B (value_bank first.value) (some ()) (first :: rest) st

/-- The two collaborator calls one iteration of the `build_initial_vregs`
loop makes for a non-empty value set: `set_range` then `build`. -/
def perSetEvents (value_bank spillslot_size : Nat → Nat)
    (item : Nat × List ValueSegment) : List Event :=
  match item with
  | (_, []) => []
  | (set, first :: rest) =>
    [Event.setRange set (spillslot_size (value_bank first.value))
       (live_range_union first rest),
     Event.build (value_bank first.value) (some ()) false (first :: rest)]

/-- Recognises a `stat!` event. -/
def Event.isStat : Event → Bool
  | Event.stat _ _ => true
  | _ => false

/-- Recognises the structural-dump event. -/
def Event.isDumpTrace : Event → Bool
  | Event.dumpTrace _ => true
  | _ => false

/-- Recognises a `set_range` event for the given value-set key. -/
def Event.isSetRangeFor (set : Nat) : Event → Bool
  | Event.setRange s0 _ _ => s0 == set
  | _ => false

/-- Two segments in order: the second starts strictly after the first, and
after the first has ended (half-open intervals, so no overlap). -/
def segOrder (a b : ValueSegment) : Prop :=
  a.live_range.from_ < b.live_range.from_ ∧ a.live_range.to_ ≤ b.live_range.from_

/-- The documented store invariant: every virtual register owns a non-empty
segment list, strictly sorted by range start and pairwise non-overlapping. -/
def VirtRegs.Consistent (s : VirtRegs) : Prop :=
  ∀ v, v < s.num_virt_regs →
    s.segments v ≠ [] ∧ List.Pairwise segOrder (s.segments v)

/-- Written from the spec's words (section 4.2), for comparison with the
embedded `dump`: one line per virtual register passing the filter, carrying
its class and spill weight and followed by its owned segments; then one
member-list line per group whose first member passes the filter. -/
def dumpSpecLines (s : VirtRegs) (f : Nat → Bool) : List Line :=
  Line.header1 ::
    (s.virt_reg_keys.filter f).flatMap (fun v =>
      Line.vreg v (s.virt_regs.getD v default).class_
        (s.virt_regs.getD v default).spill_weight ::
      (s.segments v).map Line.seg)
    ++ Line.header2 ::
    ((s.group_keys.filter fun g => f ((s.group_members g).headI)).map
      fun g => Line.group g (s.group_members g))

/-- `clear` ignores its argument: it always yields the empty store. -/
theorem VirtRegs.clear_eq_new (s : VirtRegs) : VirtRegs.clear s = VirtRegs.new :=
  rfl

/-- Inversion of the `build_initial_vregs` loop: when the fold over the
value sets succeeds, every drained set was non-empty, the resulting store is
the plain fold of builder calls, and the trace is the per-set events in
drain order. -/
theorem foldlM_processSet_ok {vb ss : Nat → Nat} {B : Builder} :
    ∀ (sets : List (Nat × List ValueSegment)) (st : VirtRegs) (evs : List Event)
      (out : VirtRegs × List Event),
      sets.foldlM (processSet vb ss B) (st, evs) = Except.ok out →
      (∀ p ∈ sets, p.2 ≠ []) ∧
      out = (sets.foldl (stepState vb B) st,
             evs ++ sets.flatMap (perSetEvents vb ss)) := by
  intro sets
  induction sets with
  | nil =>
    intro st evs out h
    simp only [List.foldlM_nil, pure, Except.pure, Except.ok.injEq] at h
    subst h
    simp
  | cons p t ih =>
    intro st evs out h
    obtain ⟨set, segs⟩ := p
    cases segs with
    | nil =>
      simp [List.foldlM_cons, processSet, bind, Except.bind] at h
    | cons first rest =>
      simp only [List.foldlM_cons, processSet, bind, Except.bind] at h
      obtain ⟨hne, hout⟩ := ih _ _ _ h
      refine ⟨?_, ?_⟩
      · intro q hq
        rw [List.mem_cons] at hq
        rcases hq with rfl | hq
        · simp
        · exact hne q hq
      · rw [hout]
        simp [stepState, perSetEvents, List.append_assoc]

/-- The positive direction: on non-empty value sets the fold succeeds, with
the same characterisation of store and trace. -/
theorem foldlM_processSet_eq {vb ss : Nat → Nat} {B : Builder} :
    ∀ (sets : List (Nat × List ValueSegment)), (∀ p ∈ sets, p.2 ≠ []) →
      ∀ (st : VirtRegs) (evs : List Event),
      sets.foldlM (processSet vb ss B) (st, evs) =
        Except.ok (sets.foldl (stepState vb B) st,
                   evs ++ sets.flatMap (perSetEvents vb ss)) := by
  intro sets
  induction sets with
  | nil => intro _ st evs; simp [List.foldlM_nil, pure, Except.pure]
  | cons p t ih =>
    intro hne st evs
    obtain ⟨set, segs⟩ := p
    cases segs with
    | nil => exact absurd rfl (hne (set, []) (by simp))
    | cons first rest =>
      simp only [List.foldlM_cons, processSet, bind, Except.bind]
      rw [ih (fun q hq => hne q (by simp [hq]))]
      simp [stepState, perSetEvents, List.append_assoc]

/-- Full characterisation of a successful `build_initial_vregs` run: the
final store is the fold of builder calls starting from the cleared store;
every set was non-empty; and the trace is the three resets, the per-set
events, the optional structural dump, then the three statistics. -/
theorem build_initial_ok {vb ss : Nat → Nat} {B : Builder} {tr : Bool}
    {sets : List (Nat × List ValueSegment)} {s st : VirtRegs} {evs : List Event}
    (h : VirtRegs.build_initial_vregs vb ss B tr sets s = Except.ok (st, evs)) :
    st = sets.foldl (stepState vb B) VirtRegs.new ∧
    (∀ p ∈ sets, p.2 ≠ []) ∧
    ∃ dumpPart,
      ((tr = false ∧ dumpPart = []) ∨
       (tr = true ∧ ∃ L, dumpLines st (fun _ => true) = some L ∧
          dumpPart = [Event.dumpTrace L])) ∧
      evs = initEvents ++ sets.flatMap (perSetEvents vb ss) ++ dumpPart ++
            statEvents st := by
  unfold VirtRegs.build_initial_vregs at h
  rw [VirtRegs.clear_eq_new] at h
  cases hfold : sets.foldlM (processSet vb ss B) (VirtRegs.new, initEvents) with
  | error e => rw [hfold] at h; simp at h
  | ok p =>
    obtain ⟨st0, evs0⟩ := p
    rw [hfold] at h
    obtain ⟨hne, hout⟩ := foldlM_processSet_ok sets _ _ _ hfold
    rw [Prod.mk.injEq] at hout
    obtain ⟨hst0, hevs0⟩ := hout
    cases tr with
    | false =>
      simp only [Bool.false_eq_true, if_false] at h
      rw [Except.ok.injEq, Prod.mk.injEq] at h
      obtain ⟨hst, hevs⟩ := h
      subst hst
      subst hevs
      subst hst0
      subst hevs0
      exact ⟨rfl, hne, [], Or.inl ⟨rfl, rfl⟩, by simp [List.append_assoc]⟩
    | true =>
      simp only [if_true] at h
      cases hdump : dumpLines st0 (fun _ => true) with
      | none => rw [hdump] at h; simp at h
      | some L =>
        rw [hdump] at h
        rw [Except.ok.injEq, Prod.mk.injEq] at h
        obtain ⟨hst, hevs⟩ := h
        subst hst
        subst hevs
        refine ⟨hst0, hne, [Event.dumpTrace L], Or.inr ⟨rfl, L, hdump, rfl⟩, ?_⟩
        subst hst0
        subst hevs0
        simp [List.append_assoc]

/-- The empty store satisfies the segment invariant vacuously. -/
theorem consistent_new : VirtRegs.new.Consistent := by
  intro v hv
  simp [VirtRegs.new, VirtRegs.num_virt_regs] at hv

/-- Folding builder calls over value sets preserves the segment invariant
whenever every builder result satisfies it. -/
theorem consistent_foldl {vb : Nat → Nat} {B : Builder}
    (hB : ∀ bank sp segs st, (B bank sp segs st).Consistent) :
    ∀ (sets : List (Nat × List ValueSegment)) (st0 : VirtRegs),
      st0.Consistent → (sets.foldl (stepState vb B) st0).Consistent := by
  intro sets
  induction sets with
  | nil => intro st0 h0; exact h0
  | cons p t ih =>
    intro st0 h0
    apply ih
    obtain ⟨k, segs⟩ := p
    cases segs with
    | nil => simpa [stepState] using h0
    | cons f r => exact hB _ _ _ _

/-- C9: an empty segment list passed to `create_vreg_from_segments` fires
the `debug_assert!` when assertions are compiled in; without assertions that
contract check is absent and the empty list only trips the storage-layer
bounds check on `segments[0]`.  With a non-empty slice the bank is inferred
from the first segment's value and the `segments[0]` indexing cannot fail:
the call returns successfully for every builder and store. -/
theorem c9_empty_segments_contract :
    (∀ (vb : Nat → Nat) (B : Builder) (s : VirtRegs) (acc : List Nat),
       VirtRegs.create_vreg_from_segments true vb B s [] acc =
         Except.error Failure.assertFail) ∧
    (∀ (vb : Nat → Nat) (B : Builder) (s : VirtRegs) (acc : List Nat),
       VirtRegs.create_vreg_from_segments false vb B s [] acc =
         Except.error Failure.indexFail) ∧
    (∀ (d : Bool) (vb : Nat → Nat) (B : Builder) (s : VirtRegs) (acc : List Nat)
       (first : ValueSegment) (rest : List ValueSegment),
       VirtRegs.create_vreg_from_segments d vb B s (first :: rest) acc =
         Except.ok (B (vb first.value) none (first :: rest) s,
           acc ++ created_handles s (B (vb first.value) none (first :: rest) s),
           Event.build (vb first.value) none true (first :: rest))) := by
  refine ⟨fun vb B s acc => rfl, fun vb B s acc => rfl,
    fun d vb B s acc first rest => ?_⟩
  cases d <;> rfl

/-- C2: `create_vreg_from_segments` invokes the builder with no
split-placement context and with the output collector present, whereas
every builder invocation recorded by `build_initial_vregs` carries the
split-placement context and no collector. -/
theorem c2_builder_invocation_modes :
    (∀ (d : Bool) (vb : Nat → Nat) (B : Builder) (s : VirtRegs)
       (segs : List ValueSegment) (acc : List Nat) (st : VirtRegs)
       (coll : List Nat) (ev : Event),
       VirtRegs.create_vreg_from_segments d vb B s segs acc =
         Except.ok (st, coll, ev) →
       ∃ bank, ev = Event.build bank none true segs) ∧
    (∀ (vb ss : Nat → Nat) (B : Builder) (tr : Bool)
       (sets : List (Nat × List ValueSegment)) (s st : VirtRegs)
       (evs : List Event),
       VirtRegs.build_initial_vregs vb ss B tr sets s = Except.ok (st, evs) →
       ∀ bank sp coll segs2, Event.build bank sp coll segs2 ∈ evs →
         sp = some () ∧ coll = false) := by
  constructor
  · intro d vb B s segs acc st coll ev h
    cases segs with
    | nil =>
      unfold VirtRegs.create_vreg_from_segments at h
      cases d <;> simp at h
    | cons first rest =>
      unfold VirtRegs.create_vreg_from_segments at h
      simp only [List.isEmpty_cons, Bool.and_false, Bool.false_eq_true,
        if_false, Except.ok.injEq, Prod.mk.injEq] at h
      exact ⟨vb first.value, h.2.2.symm⟩
  · intro vb ss B tr sets s st evs h bank sp coll segs2 hmem
    obtain ⟨-, -, dumpPart, hdp, hevs⟩ := build_initial_ok h
    subst hevs
    simp only [List.mem_append] at hmem
    rcases hmem with ((hmem | hmem) | hmem) | hmem
    · simp [initEvents] at hmem
    · rw [List.mem_flatMap] at hmem
      obtain ⟨p, hp, hin⟩ := hmem
      obtain ⟨k, segs3⟩ := p
      cases segs3 with
      | nil => simp [perSetEvents] at hin
      | cons f r =>
        simp [perSetEvents] at hin
        exact ⟨hin.2.1, hin.2.2.1⟩
    · rcases hdp with ⟨-, rfl⟩ | ⟨-, L, -, rfl⟩
      · simp at hmem
      · simp at hmem
    · simp [statEvents] at hmem

/-- C5: `build_initial_vregs` opens with the three resets (store, builder
scratch, spill allocator) before any value set is processed, and its result
is therefore independent of whatever state the store held before the call:
after `clear()` (or any prior run) a fresh `build_initial_vregs` yields a
store built purely from the new pass, so `num_virt_regs` and the group keys
reflect only newly created entities. -/
theorem c5_clean_slate :
    (∀ (vb ss : Nat → Nat) (B : Builder) (tr : Bool)
       (sets : List (Nat × List ValueSegment)) (s1 s2 : VirtRegs),
       VirtRegs.build_initial_vregs vb ss B tr sets s1 =
       VirtRegs.build_initial_vregs vb ss B tr sets s2) ∧
    (∀ (vb ss : Nat → Nat) (B : Builder) (tr : Bool)
       (sets : List (Nat × List ValueSegment)) (s st : VirtRegs)
       (evs : List Event),
       VirtRegs.build_initial_vregs vb ss B tr sets s = Except.ok (st, evs) →
       evs.take 3 = [Event.clearStore, Event.clearBuilder, Event.clearSpill] ∧
       st = sets.foldl (stepState vb B) VirtRegs.new ∧
       st.num_virt_regs =
         (sets.foldl (stepState vb B) VirtRegs.new).num_virt_regs ∧
       st.group_keys =
         (sets.foldl (stepState vb B) VirtRegs.new).group_keys) := by
  constructor
  · intro vb ss B tr sets s1 s2
    rfl
  · intro vb ss B tr sets s st evs h
    obtain ⟨hst, -, dumpPart, -, hevs⟩ := build_initial_ok h
    subst hevs
    subst hst
    refine ⟨?_, rfl, rfl, rfl⟩
    simp [initEvents, List.append_assoc]

/-- C8: the per-set body of `build_initial_vregs` validates nothing but
non-emptiness.  The empty set hits only the bounds check on `segments[0]`;
every non-empty set — sorted or not — is processed successfully, with the
live-range union taken from the first and last segments alone; and with
tracing off, `build_initial_vregs` as a whole succeeds exactly when every
drained set is non-empty. -/
theorem c8_non_emptiness_only_validation :
    (∀ (vb ss : Nat → Nat) (B : Builder) (acc : VirtRegs × List Event) (set : Nat),
       processSet vb ss B acc (set, []) = Except.error Failure.indexFail) ∧
    (∀ (vb ss : Nat → Nat) (B : Builder) (acc : VirtRegs × List Event) (set : Nat)
       (first : ValueSegment) (rest : List ValueSegment),
       processSet vb ss B acc (set, first :: rest) =
         Except.ok (B (vb first.value) (some ()) (first :: rest) acc.1,
           acc.2 ++ [Event.setRange set (ss (vb first.value))
                       (live_range_union first rest),
                     Event.build (vb first.value) (some ()) false
                       (first :: rest)])) ∧
    (∀ (vb ss : Nat → Nat) (B : Builder) (sets : List (Nat × List ValueSegment))
       (s : VirtRegs),
       (∃ out, VirtRegs.build_initial_vregs vb ss B false sets s =
          Except.ok out) ↔
       ∀ p ∈ sets, p.2 ≠ []) := by
  refine ⟨fun vb ss B acc set => rfl, fun vb ss B acc set first rest => rfl, ?_⟩
  intro vb ss B sets s
  constructor
  · rintro ⟨⟨st, evs⟩, h⟩
    exact (build_initial_ok h).2.1
  · intro hne
    unfold VirtRegs.build_initial_vregs
    rw [VirtRegs.clear_eq_new, foldlM_processSet_eq sets hne]
    exact ⟨_, rfl⟩

/-- C6: a successful `create_vreg_from_segments` call leaves the entries
already in the collector in place and appends, after them, exactly the
handles created during that call, in creation order (handles are dense, so
the appended block is increasing); every appended handle is at least the
pre-call register count, so no handle created by an earlier call is ever
appended. -/
theorem c6_collector_exact (d : Bool) (vb : Nat → Nat) (B : Builder)
    (s : VirtRegs) (segs : List ValueSegment) (acc : List Nat)
    (st : VirtRegs) (coll : List Nat) (ev : Event)
    (hok : VirtRegs.create_vreg_from_segments d vb B s segs acc =
      Except.ok (st, coll, ev)) :
    coll.take acc.length = acc ∧
    coll.drop acc.length = created_handles s st ∧
    (∀ h2 ∈ coll.drop acc.length, s.num_virt_regs ≤ h2) ∧
    List.Pairwise (· < ·) (coll.drop acc.length) := by
  cases segs with
  | nil =>
    unfold VirtRegs.create_vreg_from_segments at hok
    cases d <;> simp at hok
  | cons first rest =>
    unfold VirtRegs.create_vreg_from_segments at hok
    simp only [List.isEmpty_cons, Bool.and_false, Bool.false_eq_true,
      if_false, Except.ok.injEq, Prod.mk.injEq] at hok
    obtain ⟨hst, hcoll, -⟩ := hok
    subst hst
    subst hcoll
    refine ⟨List.take_left acc _, List.drop_left acc _, ?_, ?_⟩
    · rw [List.drop_left]
      intro h2 hmem
      unfold created_handles at hmem
      rw [List.mem_range'_1] at hmem
      exact hmem.1
    · rw [List.drop_left]
      unfold created_handles
      exact List.pairwise_lt_range' _ _

/-- C4: given that the builder honours its contract of leaving the store
consistent, every virtual register present after either construction entry
point returns has a non-empty segment list, strictly sorted by range start
and pairwise non-overlapping. -/
theorem c4_segments_invariant (vb : Nat → Nat) (B : Builder)
    (hB : ∀ bank sp segs st, (B bank sp segs st).Consistent) :
    (∀ (d : Bool) (s : VirtRegs) (segs : List ValueSegment) (acc : List Nat)
       (st : VirtRegs) (coll : List Nat) (ev : Event),
       VirtRegs.create_vreg_from_segments d vb B s segs acc =
         Except.ok (st, coll, ev) →
       st.Consistent) ∧
    (∀ (ss : Nat → Nat) (tr : Bool) (sets : List (Nat × List ValueSegment))
       (s st : VirtRegs) (evs : List Event),
       VirtRegs.build_initial_vregs vb ss B tr sets s = Except.ok (st, evs) →
       st.Consistent) := by
  constructor
  · intro d s segs acc st coll ev hok
    cases segs with
    | nil =>
      unfold VirtRegs.create_vreg_from_segments at hok
      cases d <;> simp at hok
    | cons first rest =>
      unfold VirtRegs.create_vreg_from_segments at hok
      simp only [List.isEmpty_cons, Bool.and_false, Bool.false_eq_true,
        if_false, Except.ok.injEq, Prod.mk.injEq] at hok
      obtain ⟨hst, -, -⟩ := hok
      subst hst
      exact hB _ _ _ _
  · intro ss tr sets s st evs h
    obtain ⟨hst, -, -⟩ := build_initial_ok h
    subst hst
    exact consistent_foldl hB sets VirtRegs.new consistent_new

/-- A value-set key that was never drained produces no `set_range` event. -/
theorem filter_perSet_not_mem {vb ss : Nat → Nat} {set : Nat} :
    ∀ sets : List (Nat × List ValueSegment), set ∉ sets.map Prod.fst →
      (sets.flatMap (perSetEvents vb ss)).filter (Event.isSetRangeFor set) = [] := by
  intro sets
  induction sets with
  | nil => intro _; rfl
  | cons p t ih =>
    intro hset
    simp only [List.map_cons, List.mem_cons] at hset
    push_neg at hset
    obtain ⟨h1, h2⟩ := hset
    rw [List.flatMap_cons, List.filter_append, ih h2]
    obtain ⟨k, segs⟩ := p
    cases segs with
    | nil => rfl
    | cons f r =>
      have hk : k ≠ set := fun he => h1 he.symm
      simp [perSetEvents, Event.isSetRangeFor, hk]

/-- With pairwise-distinct keys, the drained sequence produces exactly one
`set_range` event for a given key, carrying the spill-slot size of the
set's bank and the first-to-last live-range union. -/
theorem filter_perSet_mem {vb ss : Nat → Nat} {set : Nat} {first : ValueSegment}
    {rest : List ValueSegment} :
    ∀ sets : List (Nat × List ValueSegment),
      (set, first :: rest) ∈ sets → (sets.map Prod.fst).Nodup →
      (sets.flatMap (perSetEvents vb ss)).filter (Event.isSetRangeFor set) =
        [Event.setRange set (ss (vb first.value)) (live_range_union first rest)] := by
  intro sets
  induction sets with
  | nil => intro h _; simp at h
  | cons p t ih =>
    intro hmem hnd
    rw [List.map_cons, List.nodup_cons] at hnd
    obtain ⟨hp1, hnd2⟩ := hnd
    rw [List.mem_cons] at hmem
    rw [List.flatMap_cons, List.filter_append]
    rcases hmem with rfl | hmem
    · rw [filter_perSet_not_mem t hp1]
      simp [perSetEvents, Event.isSetRangeFor]
    · have hk : set ∈ t.map Prod.fst := List.mem_map.mpr ⟨_, hmem, rfl⟩
      have hp1ne : p.1 ≠ set := fun he => hp1 (he ▸ hk)
      rw [ih hmem hnd2]
      obtain ⟨k, segs⟩ := p
      cases segs with
      | nil => rfl
      | cons f r => simp [perSetEvents, Event.isSetRangeFor, hp1ne]

/-- Indexing just past a known prefix. -/
theorem getElem?_append_cons_self (A : List α) (a : α) (B2 : List α) :
    (A ++ a :: B2)[A.length]? = some a := by
  induction A with
  | nil => simp
  | cons x xs ih => simpa using ih

/-- Indexing one past a known prefix plus one. -/
theorem getElem?_append_cons_succ (A : List α) (a b : α) (B2 : List α) :
    (A ++ a :: b :: B2)[A.length + 1]? = some b := by
  induction A with
  | nil => simp
  | cons x xs ih => simpa using ih

/-- C1: in a successful `build_initial_vregs` run over value sets with
pairwise-distinct keys, each drained set has exactly one `set_range` call in
the trace, carrying the spill-slot size queried for the set's bank and the
live-range union spanning from the first segment's start to the last
segment's end, and that call precedes the builder invocation made for the
set. -/
theorem c1_set_range_union_once (vb ss : Nat → Nat) (B : Builder) (tr : Bool)
    (sets : List (Nat × List ValueSegment)) (s st : VirtRegs) (evs : List Event)
    (hnodup : (sets.map Prod.fst).Nodup)
    (hok : VirtRegs.build_initial_vregs vb ss B tr sets s = Except.ok (st, evs))
    (set : Nat) (first : ValueSegment) (rest : List ValueSegment)
    (hmem : (set, first :: rest) ∈ sets) :
    evs.filter (Event.isSetRangeFor set) =
      [Event.setRange set (ss (vb first.value)) (live_range_union first rest)] ∧
    ∃ i j : Nat, i < j ∧
      evs[i]? = some (Event.setRange set (ss (vb first.value))
        (live_range_union first rest)) ∧
      evs[j]? = some (Event.build (vb first.value) (some ()) false
        (first :: rest)) := by
  obtain ⟨hst, hne, dumpPart, hdp, hevs⟩ := build_initial_ok hok
  subst hevs
  constructor
  · simp only [List.filter_append]
    rw [filter_perSet_mem sets hmem hnodup]
    have h1 : initEvents.filter (Event.isSetRangeFor set) = [] := rfl
    have h3 : dumpPart.filter (Event.isSetRangeFor set) = [] := by
      rcases hdp with ⟨-, rfl⟩ | ⟨-, L, -, rfl⟩ <;> rfl
    have h4 : (statEvents st).filter (Event.isSetRangeFor set) = [] := rfl
    rw [h1, h3, h4]
    simp
  · obtain ⟨l1, l2, rfl⟩ := List.append_of_mem hmem
    have hshape :
        initEvents ++
          (l1 ++ (set, first :: rest) :: l2).flatMap (perSetEvents vb ss) ++
          dumpPart ++ statEvents st =
        (initEvents ++ l1.flatMap (perSetEvents vb ss)) ++
          Event.setRange set (ss (vb first.value)) (live_range_union first rest) ::
          Event.build (vb first.value) (some ()) false (first :: rest) ::
          (l2.flatMap (perSetEvents vb ss) ++ dumpPart ++ statEvents st) := by
      simp [perSetEvents, List.append_assoc]
    rw [hshape]
    refine ⟨(initEvents ++ l1.flatMap (perSetEvents vb ss)).length,
      (initEvents ++ l1.flatMap (perSetEvents vb ss)).length + 1,
      Nat.lt_succ_self _, ?_, ?_⟩
    · exact getElem?_append_cons_self _ _ _
    · exact getElem?_append_cons_succ _ _ _ _

/-- C3 as written is false: tracing the code, after the value-set loop the
structural dump (when tracing is enabled) is emitted BEFORE the summary
counters are recorded, not after.  At this concrete input — one value set,
an identity builder, tracing enabled — the run succeeds and the subsequence
of dump/stat events places the dump strictly before all three counters,
refuting the claimed counters-then-dump order. -/
theorem c3_counterexample :
    VirtRegs.build_initial_vregs (fun _ => 0) (fun _ => 8)
        (fun _ _ _ st => st) true [(0, [⟨⟨0, 4⟩, 0⟩])] VirtRegs.new =
      Except.ok (VirtRegs.new,
        [Event.clearStore, Event.clearBuilder, Event.clearSpill,
         Event.setRange 0 8 ⟨0, 4⟩,
         Event.build 0 (some ()) false [⟨⟨0, 4⟩, 0⟩],
         Event.dumpTrace [Line.header1, Line.header2],
         Event.stat StatName.initial_vregs 0,
         Event.stat StatName.initial_vreg_groups 0,
         Event.stat StatName.initial_vreg_segments 0]) ∧
    ([Event.clearStore, Event.clearBuilder, Event.clearSpill,
      Event.setRange 0 8 ⟨0, 4⟩,
      Event.build 0 (some ()) false [⟨⟨0, 4⟩, 0⟩],
      Event.dumpTrace [Line.header1, Line.header2],
      Event.stat StatName.initial_vregs 0,
      Event.stat StatName.initial_vreg_groups 0,
      Event.stat StatName.initial_vreg_segments 0].filter
        fun e => e.isStat || e.isDumpTrace) =
      [Event.dumpTrace [Line.header1, Line.header2],
       Event.stat StatName.initial_vregs 0,
       Event.stat StatName.initial_vreg_groups 0,
       Event.stat StatName.initial_vreg_segments 0] := by
  exact ⟨rfl, rfl⟩

/-- C3 amended: after all value sets are processed, the structural dump is
emitted first (and only if tracing is enabled), and then the summary
counters — total virtual registers, total groups, total segments — are
recorded; no dump or stat event occurs during the loop, and neither trailing
step affects the store, which is fully determined by the loop's builder
calls. -/
theorem c3_stats_after_dump (vb ss : Nat → Nat) (B : Builder) (tr : Bool)
    (sets : List (Nat × List ValueSegment)) (s st : VirtRegs)
    (evs : List Event)
    (hok : VirtRegs.build_initial_vregs vb ss B tr sets s =
      Except.ok (st, evs)) :
    ∃ evsLoop dumpPart,
      evs = evsLoop ++ dumpPart ++ statEvents st ∧
      (tr = false → dumpPart = []) ∧
      (tr = true → ∃ L, dumpLines st (fun _ => true) = some L ∧
        dumpPart = [Event.dumpTrace L]) ∧
      st = sets.foldl (stepState vb B) VirtRegs.new ∧
      (∀ e ∈ evsLoop, e.isStat = false ∧ e.isDumpTrace = false) := by
  obtain ⟨hst, -, dumpPart, hdp, hevs⟩ := build_initial_ok hok
  subst hevs
  refine ⟨initEvents ++ sets.flatMap (perSetEvents vb ss), dumpPart,
    by simp [List.append_assoc], ?_, ?_, hst, ?_⟩
  · rintro rfl
    rcases hdp with ⟨-, rfl⟩ | ⟨h, -⟩
    · rfl
    · exact absurd h (by simp)
  · rintro rfl
    rcases hdp with ⟨h, -⟩ | ⟨-, L, hL, rfl⟩
    · exact absurd h (by simp)
    · exact ⟨L, hL, rfl⟩
  · intro e he
    rw [List.mem_append] at he
    rcases he with he | he
    · simp only [initEvents, List.mem_cons, List.not_mem_nil, or_false] at he
      rcases he with rfl | rfl | rfl
      · exact ⟨rfl, rfl⟩
      · exact ⟨rfl, rfl⟩
      · exact ⟨rfl, rfl⟩
    · rw [List.mem_flatMap] at he
      obtain ⟨p, -, hin⟩ := he
      obtain ⟨k, segs⟩ := p
      cases segs with
      | nil => simp [perSetEvents] at hin
      | cons f r =>
        simp only [perSetEvents, List.mem_cons, List.not_mem_nil, or_false] at hin
        rcases hin with rfl | rfl
        · exact ⟨rfl, rfl⟩
        · exact ⟨rfl, rfl⟩

/-- Pushing a filter out of a guarded flat-map. -/
theorem flatMap_ite_eq_filter_flatMap {α β : Type} (f : α → Bool)
    (g : α → List β) :
    ∀ l : List α,
      l.flatMap (fun a => if f a then g a else []) = (l.filter f).flatMap g := by
  intro l
  induction l with
  | nil => rfl
  | cons a t ih => rw [List.filter_cons]; cases hf : f a <;> simp [hf, ih]

/-- Flat-maps agree when the functions agree on the list's members. -/
theorem flatMap_congr_mem {α β : Type} {l : List α} {f g : α → List β}
    (h : ∀ a ∈ l, f a = g a) : l.flatMap f = l.flatMap g := by
  induction l with
  | nil => rfl
  | cons a t ih =>
    rw [List.flatMap_cons, List.flatMap_cons, h a (by simp),
      ih fun b hb => h b (by simp [hb])]

/-- The register loop of `dump` in spec form: one block per key passing the
filter, built from total lookups. -/
theorem vregLines_eq_spec (s : VirtRegs) (f : Nat → Bool) :
    vregLines s f = (s.virt_reg_keys.filter f).flatMap fun v =>
      Line.vreg v (s.virt_regs.getD v default).class_
        (s.virt_regs.getD v default).spill_weight ::
      (s.segments v).map Line.seg := by
  rw [vregLines, ← flatMap_ite_eq_filter_flatMap]
  apply flatMap_congr_mem
  intro v hv
  rw [List.mem_range] at hv
  rw [List.getElem?_eq_getElem hv, List.getD_eq_getElem _ _ hv,
    VirtRegs.segments, List.getElem?_eq_getElem hv]
  rfl

/-- The group loop of `dump` succeeds and takes spec form whenever the
listed groups all have a first member. -/
theorem groupLines_eq_spec (s : VirtRegs) (f : Nat → Bool) :
    ∀ (gl : List Nat) (acc : List Line),
      (∀ g ∈ gl, s.group_members g ≠ []) →
      gl.foldlM (groupStep s f) acc =
        some (acc ++ (gl.filter fun g => f ((s.group_members g).headI)).map
          fun g => Line.group g (s.group_members g)) := by
  intro gl
  induction gl with
  | nil => intro acc _; simp [List.foldlM_nil, pure]
  | cons g t ih =>
    intro acc hne
    obtain ⟨m, ms, hm⟩ : ∃ m ms, s.group_members g = m :: ms := by
      cases hmm : s.group_members g with
      | nil => exact absurd hmm (hne g (by simp))
      | cons m ms => exact ⟨m, ms, rfl⟩
    rw [List.foldlM_cons]
    have hstep : groupStep s f acc g =
        if f m then some (acc ++ [Line.group g (s.group_members g)])
        else some acc := by
      rw [groupStep, hm]
      simp
    rw [List.filter_cons]
    have hheadI : (s.group_members g).headI = m := by rw [hm]; rfl
    rw [hheadI]
    cases hf : f m with
    | true =>
      rw [hstep, if_pos hf]
      show t.foldlM (groupStep s f) (acc ++ [Line.group g (s.group_members g)]) = _
      rw [ih _ fun q hq => hne q (by simp [hq])]
      simp [List.append_assoc]
    | false =>
      rw [hstep, if_neg (by simp [hf])]
      show t.foldlM (groupStep s f) acc = _
      rw [ih _ fun q hq => hne q (by simp [hq])]
      simp [hf]

/-- C7: when every group record has a first member (as the store invariant
guarantees), `dump` is read-only — it returns the store it was given — and
emits exactly: the register heading; for each virtual register passing the
filter, its class and spill weight followed by each owned segment; the
group heading; and, once per group whose first member passes the filter,
that group's member list.  With the constantly-false predicate it emits no
register lines and no group lines, only the two fixed headings. -/
theorem c7_dump_read_only_and_filtered (s : VirtRegs) (f : Nat → Bool)
    (hg : ∀ g, g < s.groups.length → s.group_members g ≠ []) :
    VirtRegs.dump s f = some (s, dumpSpecLines s f) ∧
    VirtRegs.dump s (fun _ => false) =
      some (s, [Line.header1, Line.header2]) := by
  have hlines : ∀ f2 : Nat → Bool, dumpLines s f2 = some (dumpSpecLines s f2) := by
    intro f2
    rw [dumpLines, groupLines,
      groupLines_eq_spec s f2 _ [] fun g hgm => hg g (List.mem_range.mp hgm)]
    rw [dumpSpecLines, vregLines_eq_spec]
    simp [VirtRegs.virt_reg_keys, VirtRegs.group_keys]
  have h1 : dumpSpecLines s (fun _ => false) = [Line.header1, Line.header2] := by
    rw [dumpSpecLines]
    simp [List.filter_false]
  refine ⟨?_, ?_⟩
  · rw [VirtRegs.dump, hlines f]
    rfl
  · rw [VirtRegs.dump, hlines (fun _ => false), h1]
    rfl

/-- If any listed group has no first member, the group loop of `dump` hits
its bounds-check failure. -/
theorem foldlM_groupStep_none (s : VirtRegs) (f : Nat → Bool) (g : Nat)
    (he : s.group_members g = []) :
    ∀ (gl : List Nat) (acc : List Line), g ∈ gl →
      gl.foldlM (groupStep s f) acc = none := by
  intro gl
  induction gl with
  | nil => intro acc h; simp at h
  | cons x t ih =>
    intro acc hmem
    rw [List.foldlM_cons]
    rcases List.mem_cons.mp hmem with rfl | hmem
    · have hx : groupStep s f acc g = none := by rw [groupStep, he]; rfl
      rw [hx]
      rfl
    · cases hstep : groupStep s f acc x with
      | none => rfl
      | some acc2 =>
        show t.foldlM (groupStep s f) acc2 = none
        exact ih acc2 hmem

/-- C10: `dump` indexes the first member of every group record before even
consulting its filter, so a store holding a group with an empty member list
makes `dump` reach the bounds-check failure for every predicate. -/
theorem c10_dump_empty_group_fails (s : VirtRegs) (f : Nat → Bool) (g : Nat)
    (hg : g < s.groups.length) (he : s.group_members g = []) :
    VirtRegs.dump s f = none := by
  rw [VirtRegs.dump, dumpLines, groupLines,
    foldlM_groupStep_none s f g he _ [] (List.mem_range.mpr hg)]
  rfl

/-- Witness for C1 at a one-set run with tracing off. -/
theorem c1_witness :
    ([Event.clearStore, Event.clearBuilder, Event.clearSpill,
      Event.setRange 0 8 ⟨0, 4⟩,
      Event.build 0 (some ()) false [⟨⟨0, 4⟩, 0⟩],
      Event.stat StatName.initial_vregs 0,
      Event.stat StatName.initial_vreg_groups 0,
      Event.stat StatName.initial_vreg_segments 0].filter
        (Event.isSetRangeFor 0) = [Event.setRange 0 8 ⟨0, 4⟩]) ∧
    ∃ i j : Nat, i < j ∧
      [Event.clearStore, Event.clearBuilder, Event.clearSpill,
       Event.setRange 0 8 ⟨0, 4⟩,
       Event.build 0 (some ()) false [⟨⟨0, 4⟩, 0⟩],
       Event.stat StatName.initial_vregs 0,
       Event.stat StatName.initial_vreg_groups 0,
       Event.stat StatName.initial_vreg_segments 0][i]? =
        some (Event.setRange 0 8 ⟨0, 4⟩) ∧
      [Event.clearStore, Event.clearBuilder, Event.clearSpill,
       Event.setRange 0 8 ⟨0, 4⟩,
       Event.build 0 (some ()) false [⟨⟨0, 4⟩, 0⟩],
       Event.stat StatName.initial_vregs 0,
       Event.stat StatName.initial_vreg_groups 0,
       Event.stat StatName.initial_vreg_segments 0][j]? =
        some (Event.build 0 (some ()) false [⟨⟨0, 4⟩, 0⟩]) :=
  c1_set_range_union_once (fun _ => 0) (fun _ => 8) (fun _ _ _ st => st) false
    [(0, [⟨⟨0, 4⟩, 0⟩])] VirtRegs.new VirtRegs.new _ (by simp) rfl
    0 ⟨⟨0, 4⟩, 0⟩ [] (by simp)

/-- Witness for C2 at concrete calls of both entry points. -/
theorem c2_witness :
    (∃ bank, Event.build 0 none true [⟨⟨0, 4⟩, 0⟩] =
      Event.build bank none true [⟨⟨0, 4⟩, 0⟩]) ∧
    (some () = some () ∧ false = false) := by
  constructor
  · exact c2_builder_invocation_modes.1 true (fun _ => 0) (fun _ _ _ st => st)
      VirtRegs.new [⟨⟨0, 4⟩, 0⟩] [] VirtRegs.new []
      (Event.build 0 none true [⟨⟨0, 4⟩, 0⟩]) rfl
  · exact c2_builder_invocation_modes.2 (fun _ => 0) (fun _ => 8)
      (fun _ _ _ st => st) false [(0, [⟨⟨0, 4⟩, 0⟩])] VirtRegs.new VirtRegs.new
      [Event.clearStore, Event.clearBuilder, Event.clearSpill,
       Event.setRange 0 8 ⟨0, 4⟩,
       Event.build 0 (some ()) false [⟨⟨0, 4⟩, 0⟩],
       Event.stat StatName.initial_vregs 0,
       Event.stat StatName.initial_vreg_groups 0,
       Event.stat StatName.initial_vreg_segments 0] rfl
      0 (some ()) false [⟨⟨0, 4⟩, 0⟩] (by simp)

/-- Witness for the amended C3 at a traced one-set run. -/
theorem c3_witness :
    ∃ evsLoop dumpPart,
      [Event.clearStore, Event.clearBuilder, Event.clearSpill,
       Event.setRange 0 8 ⟨0, 4⟩,
       Event.build 0 (some ()) false [⟨⟨0, 4⟩, 0⟩],
       Event.dumpTrace [Line.header1, Line.header2],
       Event.stat StatName.initial_vregs 0,
       Event.stat StatName.initial_vreg_groups 0,
       Event.stat StatName.initial_vreg_segments 0] =
        evsLoop ++ dumpPart ++ statEvents VirtRegs.new ∧
      (true = false → dumpPart = []) ∧
      (true = true → ∃ L, dumpLines VirtRegs.new (fun _ => true) = some L ∧
        dumpPart = [Event.dumpTrace L]) ∧
      VirtRegs.new = [(0, [⟨⟨0, 4⟩, 0⟩])].foldl
        (stepState (fun _ => 0) (fun _ _ _ st => st)) VirtRegs.new ∧
      (∀ e ∈ evsLoop, e.isStat = false ∧ e.isDumpTrace = false) :=
  c3_stats_after_dump (fun _ => 0) (fun _ => 8) (fun _ _ _ st => st) true
    [(0, [⟨⟨0, 4⟩, 0⟩])] VirtRegs.new VirtRegs.new _ rfl

/-- Witness for C4 with a builder that always yields the (consistent) empty
store. -/
theorem c4_witness : VirtRegs.new.Consistent :=
  (c4_segments_invariant (fun _ => 0) (fun _ _ _ _ => VirtRegs.new)
    (fun _ _ _ _ => consistent_new)).1 true VirtRegs.new [⟨⟨0, 4⟩, 0⟩] []
    VirtRegs.new [] (Event.build 0 none true [⟨⟨0, 4⟩, 0⟩]) rfl

/-- Witness for C5: the same pass from an empty store and from a stale
non-empty store, plus the reset prefix of a concrete run. -/
theorem c5_witness :
    (VirtRegs.build_initial_vregs (fun _ => 0) (fun _ => 8)
        (fun _ _ _ st => st) false [(0, [⟨⟨0, 4⟩, 0⟩])] VirtRegs.new =
      VirtRegs.build_initial_vregs (fun _ => 0) (fun _ => 8)
        (fun _ _ _ st => st) false [(0, [⟨⟨0, 4⟩, 0⟩])]
        ⟨[⟨⟨0, 0⟩, 0, 0, none, false, 0⟩], [⟨0, 0⟩], [], []⟩) ∧
    ([Event.clearStore, Event.clearBuilder, Event.clearSpill,
      Event.setRange 0 8 ⟨0, 4⟩,
      Event.build 0 (some ()) false [⟨⟨0, 4⟩, 0⟩],
      Event.stat StatName.initial_vregs 0,
      Event.stat StatName.initial_vreg_groups 0,
      Event.stat StatName.initial_vreg_segments 0].take 3 =
        [Event.clearStore, Event.clearBuilder, Event.clearSpill] ∧
     VirtRegs.new = [(0, [⟨⟨0, 4⟩, 0⟩])].foldl
       (stepState (fun _ => 0) (fun _ _ _ st => st)) VirtRegs.new ∧
     VirtRegs.new.num_virt_regs =
       ([(0, [⟨⟨0, 4⟩, 0⟩])].foldl
         (stepState (fun _ => 0) (fun _ _ _ st => st))
         VirtRegs.new).num_virt_regs ∧
     VirtRegs.new.group_keys =
       ([(0, [⟨⟨0, 4⟩, 0⟩])].foldl
         (stepState (fun _ => 0) (fun _ _ _ st => st))
         VirtRegs.new).group_keys) :=
  ⟨c5_clean_slate.1 (fun _ => 0) (fun _ => 8) (fun _ _ _ st => st) false
      [(0, [⟨⟨0, 4⟩, 0⟩])] VirtRegs.new
      ⟨[⟨⟨0, 0⟩, 0, 0, none, false, 0⟩], [⟨0, 0⟩], [], []⟩,
   c5_clean_slate.2 (fun _ => 0) (fun _ => 8) (fun _ _ _ st => st) false
      [(0, [⟨⟨0, 4⟩, 0⟩])] VirtRegs.new VirtRegs.new _ rfl⟩

/-- Witness for C6: a call on a collector holding handle 5 from before, a
builder creating one register; the call appends exactly handle 0. -/
theorem c6_witness :
    ([5, 0].take 1 = [5]) ∧
    ([5, 0].drop 1 = created_handles VirtRegs.new
      ⟨[⟨⟨0, 0⟩, 0, 0, none, false, 0⟩], [], [], []⟩) ∧
    (∀ h2 ∈ [5, 0].drop 1, VirtRegs.new.num_virt_regs ≤ h2) ∧
    List.Pairwise (· < ·) ([5, 0].drop 1) :=
  c6_collector_exact false (fun _ => 0)
    (fun _ _ _ st => ⟨st.virt_regs ++ [(⟨⟨0, 0⟩, 0, 0, none, false, 0⟩ : VirtRegData)],
      st.groups, st.segment_pool, st.group_pool⟩)
    VirtRegs.new [⟨⟨0, 4⟩, 0⟩] [5]
    ⟨[⟨⟨0, 0⟩, 0, 0, none, false, 0⟩], [], [], []⟩ [5, 0]
    (Event.build 0 none true [⟨⟨0, 4⟩, 0⟩]) rfl

/-- Witness for C7 on a store with one register owning one segment and one
singleton group. -/
theorem c7_witness :
    VirtRegs.dump ⟨[⟨⟨0, 1⟩, 2, 0, some 0, false, 3⟩], [⟨0, 1⟩],
        [⟨⟨0, 4⟩, 0⟩], [0]⟩ (fun _ => true) =
      some (⟨[⟨⟨0, 1⟩, 2, 0, some 0, false, 3⟩], [⟨0, 1⟩],
        [⟨⟨0, 4⟩, 0⟩], [0]⟩,
        dumpSpecLines ⟨[⟨⟨0, 1⟩, 2, 0, some 0, false, 3⟩], [⟨0, 1⟩],
          [⟨⟨0, 4⟩, 0⟩], [0]⟩ (fun _ => true)) ∧
    VirtRegs.dump ⟨[⟨⟨0, 1⟩, 2, 0, some 0, false, 3⟩], [⟨0, 1⟩],
        [⟨⟨0, 4⟩, 0⟩], [0]⟩ (fun _ => false) =
      some (⟨[⟨⟨0, 1⟩, 2, 0, some 0, false, 3⟩], [⟨0, 1⟩],
        [⟨⟨0, 4⟩, 0⟩], [0]⟩, [Line.header1, Line.header2]) :=
  c7_dump_read_only_and_filtered _ _ (by decide)

/-- Witness for C8's success characterisation at an unsorted two-segment
set: no ordering validation is performed, the union still spans first start
to last end. -/
theorem c8_witness :
    processSet (fun _ => 0) (fun _ => 8) (fun _ _ _ st => st)
      (VirtRegs.new, []) (7, [⟨⟨10, 14⟩, 0⟩, ⟨⟨0, 4⟩, 0⟩]) =
      Except.ok (VirtRegs.new,
        [Event.setRange 7 8 ⟨10, 4⟩,
         Event.build 0 (some ()) false [⟨⟨10, 14⟩, 0⟩, ⟨⟨0, 4⟩, 0⟩]]) :=
  c8_non_emptiness_only_validation.2.1 (fun _ => 0) (fun _ => 8)
    (fun _ _ _ st => st) (VirtRegs.new, []) 7 ⟨⟨10, 14⟩, 0⟩ [⟨⟨0, 4⟩, 0⟩]

/-- Witness for C9 at concrete calls in both configurations. -/
theorem c9_witness :
    VirtRegs.create_vreg_from_segments true (fun _ => 0) (fun _ _ _ st => st)
      VirtRegs.new [] [] = Except.error Failure.assertFail ∧
    VirtRegs.create_vreg_from_segments false (fun _ => 0) (fun _ _ _ st => st)
      VirtRegs.new [] [] = Except.error Failure.indexFail ∧
    VirtRegs.create_vreg_from_segments true (fun _ => 0) (fun _ _ _ st => st)
      VirtRegs.new [⟨⟨0, 4⟩, 0⟩] [] =
      Except.ok (VirtRegs.new, [],
        Event.build 0 none true [⟨⟨0, 4⟩, 0⟩]) :=
  ⟨c9_empty_segments_contract.1 (fun _ => 0) (fun _ _ _ st => st)
      VirtRegs.new [],
   c9_empty_segments_contract.2.1 (fun _ => 0) (fun _ _ _ st => st)
      VirtRegs.new [],
   c9_empty_segments_contract.2.2 true (fun _ => 0) (fun _ _ _ st => st)
      VirtRegs.new [] ⟨⟨0, 4⟩, 0⟩ []⟩

/-- Witness for C10 on a store holding one group with an empty member
list. -/
theorem c10_witness :
    VirtRegs.dump ⟨[], [⟨0, 0⟩], [], []⟩ (fun _ => true) = none :=
  c10_dump_empty_group_fails ⟨[], [⟨0, 0⟩], [], []⟩ (fun _ => true) 0
    (by decide) rfl

end VirtRegsModel
